import Mathlib

/-!
Verification development for the markdown section-editing core of
`.github/workflows/auto_doc.py` (the "Markdown Utils" block).

Strings are modelled as lists of characters (`Str`).  Python's `\s`
character class, `str.strip` / `str.rstrip`, `str.splitlines(keepends=True)`
and `"\n".join` are modelled for ASCII text whose line boundaries are
`"\n"`, `"\r\n"` or `"\r"` (the conventions the spec talks about).

The regular-expression matching done by `get_heading_regex` /
`re.match` is modelled for query titles that contain no regex
metacharacters (`regexLiteral` below); for such titles
`re.match("^(#+)\s+TITLE", line)` succeeds exactly when the line starts
with a maximal run of one or more hash marks, followed by at least one
whitespace character, followed (after the maximal whitespace run) by the
characters of the stripped TITLE — a prefix match, nothing anchors the
end of the title.  Fallible Python code (AttributeError / IndexError /
AssertionError paths) is modelled with `Except Unit`.
-/

/-- Characters as Python strings: a document is a list of characters. -/
abbrev Str := List Char

/-- Python's `\s` / `str.strip()` whitespace class, restricted to ASCII. -/
def isSpace (c : Char) : Bool :=
  c == ' ' || c == '\t' || c == '\n' || c == '\r' || c == '\x0b' || c == '\x0c'

/-- Python `str.rstrip()`: remove the maximal trailing run of whitespace. -/
def rstrip : Str → Str
  | [] => []
  | c :: cs =>
    match rstrip cs with
    | [] => if isSpace c then [] else [c]
    | r => c :: r

/-- Python `str.lstrip()`: remove the maximal leading run of whitespace. -/
def lstrip (s : Str) : Str := s.dropWhile isSpace

/-- Python `str.strip()`: trim whitespace from both ends. -/
def pyStrip (s : Str) : Str := rstrip (lstrip s)

/-- Length of the leading run of hash marks (the regex group `(#+)`). -/
def hashCount (line : Str) : Nat := (line.takeWhile (fun c => c == '#')).length

/-- The characters after the leading run of hash marks. -/
def afterHashes (line : Str) : Str := line.dropWhile (fun c => c == '#')

/-- Whether a string starts with a whitespace character (first char of `\s+`). -/
def headIsSpace : Str → Bool
  | [] => false
  | c :: _ => isSpace c

/-- Result of `re.match(r"^(#+)\s+", line)` being truthy: the test
`get_heading_level` and `find_markdown_section`'s end scan perform. -/
def headingMatch (line : Str) : Bool :=
  decide (1 ≤ hashCount line) && headIsSpace (afterHashes line)

/-- The text of the line after the marker run and the maximal whitespace
run following it (still carrying any line terminator at its end). -/
def restTitle (line : Str) : Str := (afterHashes line).dropWhile isSpace

/-- The trimmed title of a well-formed heading line: text after the
marker run and its separating whitespace, trimmed at both ends
(Python's `get_heading_title` for ordinary heading lines). -/
def get_heading_title (line : Str) : Str := pyStrip (restTitle line)

/-- Whether `re.match(get_heading_regex(t, None), line)` succeeds, for a
metacharacter-free stripped title `t`: regex `^(#+)\s+t`. -/
def titleMatchAny (t line : Str) : Bool :=
  headingMatch line && List.isPrefixOf t (restTitle line)

/-- Whether `re.match(get_heading_regex(t, level), line)` succeeds for a
given level: regex `^#^level\s+t` (exactly `level` hash marks, because the
character after them must be whitespace). -/
def titleMatchLevel (lv : Nat) (t line : Str) : Bool :=
  decide (line.take lv = List.replicate lv '#') &&
  headIsSpace (line.drop lv) &&
  List.isPrefixOf t ((line.drop lv).dropWhile isSpace)

/-- Characters that are regex metacharacters in Python's `re`; titles made
of other characters are matched literally by `get_heading_regex`. -/
def isRegexMeta (c : Char) : Bool :=
  c == '.' || c == '^' || c == '$' || c == '*' || c == '+' || c == '?' ||
  c == '(' || c == ')' || c == '[' || c == ']' || c == '|' || c == '\\' ||
  c == Char.ofNat 123 || c == Char.ofNat 125

/-- A string free of regex metacharacters: for these the model's matcher
agrees with `re.match` on the regex `get_heading_regex` builds. -/
def regexLiteral (s : Str) : Bool := s.all (fun c => !isRegexMeta c)

/-- Semantics of `re.match(re.compile(get_heading_regex(title, level)), line)`:
the title is stripped when the regex is built. -/
def headingRegexMatch (title : Str) (level : Option Nat) (line : Str) : Bool :=
  match level with
  | none => titleMatchAny (pyStrip title) line
  | some lv => titleMatchLevel lv (pyStrip title) line

/-- Python `string.splitlines(keepends=True)` for documents whose line
boundaries are `"\n"`, `"\r\n"` or `"\r"`. -/
def splitlines : Str → List Str
  | [] => []
  | '\n' :: rest => ['\n'] :: splitlines rest
  | '\r' :: '\n' :: rest => ['\r', '\n'] :: splitlines rest
  | '\r' :: rest => ['\r'] :: splitlines rest
  | c :: rest =>
    match splitlines rest with
    | [] => [[c]]
    | l :: ls => (c :: l) :: ls

/-- Python `sep.join(strings)`. -/
def joinWith (sep : Str) : List Str → Str
  | [] => []
  | [x] => x
  | x :: xs => x ++ sep ++ joinWith sep xs

/-- Source `string_to_lines`: `string.splitlines(keepends=True)`. -/
def string_to_lines (s : Str) : List Str := splitlines s

/-- Source `lines_to_string`: `"\n".join([line.rstrip() for line in lines])`. -/
def lines_to_string (lines : List Str) : Str :=
  joinWith ['\n'] (lines.map rstrip)

/-- The `for i, line in enumerate(..): if p(line): return/record i; break`
loop shape shared by `find_markdown_heading` and `find_markdown_section`,
with `i` counted from `i0`. -/
def findLoop (p : Str → Bool) : List Str → Nat → Option Nat
  | [], _ => none
  | l :: ls, i => if p l then some i else findLoop p ls (i + 1)

/-- Source `find_markdown_heading(markdown_lines, heading, level, start_line)`:
first index at or after `start_line` whose line matches the heading regex,
`None` when there is none. -/
def find_markdown_heading (markdown_lines : List Str) (heading : Str)
    (level : Option Nat) (start_line : Nat) : Option Nat :=
  findLoop (headingRegexMatch heading level) (markdown_lines.drop start_line) start_line

/-- Source `get_heading_level`: `len(re.match(r"^(#+)\s+", line).group(1))`,
`none` for the AttributeError raised when the line is not a heading. -/
def get_heading_level (heading_line : Str) : Option Nat :=
  if headingMatch heading_line then some (hashCount heading_line) else none

/-- Python slice `xs[:i]` for a possibly negative `i`. -/
def pyTake (xs : List Str) (i : Int) : List Str :=
  if i < 0 then xs.take (xs.length - min xs.length i.natAbs) else xs.take i.toNat

/-- Python slice `xs[i:]` for a possibly negative `i`. -/
def pyDrop (xs : List Str) (i : Int) : List Str :=
  if i < 0 then xs.drop (xs.length - min xs.length i.natAbs) else xs.drop i.toNat

/-- Source `find_markdown_section(markdown_lines, section_title, level, start_line)`.
The first loop leaves `start_line` unchanged when no line matches the title
regex (the `if start_line is None` check in the source is unreachable:
`start_line` is always an int).  The call
`get_heading_level(markdown_lines[start_line])` then raises IndexError when
the index is out of range and AttributeError when that line is no heading:
both are `Except.error ()` here.  The end scan records `start_line + i`
where line `start_line + 1 + i` is the first following heading of level at
most the anchor's, and `len(markdown_lines) - 1` when there is none. -/
def find_markdown_section (markdown_lines : List Str) (section_title : Str)
    (level : Option Nat) (start_line : Nat) : Except Unit (Nat × Nat) :=
  let s :=
    match findLoop (headingRegexMatch section_title level)
        (markdown_lines.drop start_line) start_line with
    | some j => j
    | none => start_line
  match markdown_lines.get? s with
  | none => Except.error ()
  | some anchor =>
    match get_heading_level anchor with
    | none => Except.error ()
    | some lvl =>
      let e :=
        match findLoop (fun l => headingMatch l && decide (hashCount l ≤ lvl))
            (markdown_lines.drop (s + 1)) 0 with
        | some i => s + i
        | none => markdown_lines.length - 1
      Except.ok (s, e)

/-- Source `replace_markdown_section_content(markdown_string, section_title,
new_content, replace_heading)`.  The `start_line is None` early return in the
source is unreachable (see `find_markdown_section`); errors from the section
search propagate.  With `replace_heading` false the source first increments
`start_line` and then slices `markdown_lines[:start_line-1]`, so the spliced
prefix is `markdown_lines[:start_line]` of the located section. -/
def replace_markdown_section_content (markdown_string section_title new_content : Str)
    (replace_heading : Bool) : Except Unit (Str × Bool) :=
  let markdown_lines := string_to_lines markdown_string
  match find_markdown_section markdown_lines section_title none 0 with
  | Except.error e => Except.error e
  | Except.ok (s, en) =>
    let start : Int := if replace_heading then (s : Int) else (s : Int) + 1
    let new_markdown_lines :=
      pyTake markdown_lines (start - 1) ++ string_to_lines new_content ++
        pyDrop markdown_lines ((en : Int) + 1)
    Except.ok (lines_to_string new_markdown_lines, true)

/-- Truthiness of the optional `after_heading` argument: `None` and the
empty string are falsy in Python. -/
def optTruthy : Option Str → Bool
  | none => false
  | some s => !s.isEmpty

/-- Source `add_markdown_section(markdown_string, new_content, after_heading,
at_begining)`.  The `assert not (after_heading and at_begining)` failure is
`Except.error ()`.  The final serialization is a plain `"\n".join` of lines
that keep their original endings — not `lines_to_string`. -/
def add_markdown_section (markdown_string new_content : Str)
    (after_heading : Option Str) (at_begining : Bool) : Except Unit (Str × Bool) :=
  if optTruthy after_heading && at_begining then Except.error ()
  else if at_begining then Except.ok (new_content ++ markdown_string, true)
  else
    let markdown_lines := string_to_lines markdown_string
    let start : Int :=
      if optTruthy after_heading then
        match find_markdown_heading markdown_lines (after_heading.getD []) none 0 with
        | some j => (j : Int)
        | none => (markdown_lines.length : Int) - 1
      else (markdown_lines.length : Int) - 1
    let new_markdown_lines :=
      pyTake markdown_lines (start + 1) ++ string_to_lines new_content ++
        pyDrop markdown_lines (start + 1)
    Except.ok (joinWith ['\n'] new_markdown_lines, true)

/-- Shorthand turning a Lean string literal into the model's character lists. -/
def str (s : String) : Str := s.toList

/-- Lines free of the modelled boundary characters. -/
def boundaryFree (l : Str) : Bool := l.all (fun c => !(c == '\n' || c == '\r'))

/-- What `find_markdown_section` actually returns as `e` for an anchor `s`:
one less than the index of the first following heading of level at most the
anchor's, or `len(lines) - 1` when no such heading follows. -/
def section_end_spec (lines : List Str) (s e : Nat) : Prop :=
  ∃ lvl, get_heading_level (lines.getD s []) = some lvl ∧
    ((∃ j, s < j ∧ j < lines.length ∧
        headingMatch (lines.getD j []) = true ∧ hashCount (lines.getD j []) ≤ lvl ∧
        (∀ m, s < m → m < j →
          ¬(headingMatch (lines.getD m []) = true ∧ hashCount (lines.getD m []) ≤ lvl)) ∧
        e = j - 1) ∨
      ((∀ j, s < j → j < lines.length →
        ¬(headingMatch (lines.getD j []) = true ∧ hashCount (lines.getD j []) ≤ lvl)) ∧
        e = lines.length - 1))

/-- What a line must look like for the heading query to match it: a heading
line (marker run then whitespace), at the exact level when one is requested,
whose title text (after the markers and the separating whitespace) STARTS
WITH the stripped query title — a prefix match, not an equality. -/
def heading_search_spec (title : Str) (level : Option Nat) (line : Str) : Prop :=
  headingMatch line = true ∧
  (match level with
   | some lv => hashCount line = lv
   | none => True) ∧
  pyStrip title <+: restTitle line

/-- First-match semantics of `find_markdown_heading` relative to the real
matching rule `heading_search_spec`. -/
def find_heading_spec (lines : List Str) (title : Str) (level : Option Nat) (off : Nat)
    (result : Option Nat) : Prop :=
  match result with
  | some j => off ≤ j ∧ j < lines.length ∧
      heading_search_spec title level (lines.getD j []) ∧
      ∀ m, off ≤ m → m < j → ¬heading_search_spec title level (lines.getD m [])
  | none => ∀ m, off ≤ m → m < lines.length →
      ¬heading_search_spec title level (lines.getD m [])

/-- Documents that end with a bare newline character. -/
def ends_nl (s : Str) : Bool :=
  match s.getLast? with
  | some c => c == '\n'
  | none => false

theorem rstrip_cons (c : Char) (cs : Str) :
    rstrip (c :: cs) =
      if rstrip cs = [] then (if isSpace c then [] else [c]) else c :: rstrip cs := by
  cases h : rstrip cs with
  | nil => simp [rstrip, h]
  | cons a as => simp [rstrip, h]

theorem hashCount_cons (c : Char) (cs : Str) :
    hashCount (c :: cs) = if c = '#' then hashCount cs + 1 else 0 := by
  by_cases h : c = '#' <;> simp [hashCount, List.takeWhile_cons, h]

theorem afterHashes_cons (c : Char) (cs : Str) :
    afterHashes (c :: cs) = if c = '#' then afterHashes cs else c :: cs := by
  by_cases h : c = '#' <;> simp [afterHashes, List.dropWhile_cons, h]

theorem ws_ne_hash (c : Char) (h : isSpace c = true) : c ≠ '#' := by
  intro he; rw [he] at h; simp [isSpace] at h

theorem splitlines_nil : splitlines [] = [] := rfl

theorem splitlines_nl (rest : Str) : splitlines ('\n' :: rest) = ['\n'] :: splitlines rest := rfl

theorem splitlines_crlf (rest : Str) :
    splitlines ('\r' :: '\n' :: rest) = ['\r', '\n'] :: splitlines rest := rfl

theorem splitlines_cr_nil : splitlines ['\r'] = [['\r']] := rfl

theorem splitlines_cr (d : Char) (r2 : Str) (h : d ≠ '\n') :
    splitlines ('\r' :: d :: r2) = ['\r'] :: splitlines (d :: r2) := by
  simp [splitlines, h]

theorem splitlines_other (c : Char) (rest : Str) (h1 : c ≠ '\n') (h2 : c ≠ '\r') :
    splitlines (c :: rest) =
      match splitlines rest with
      | [] => [[c]]
      | l :: ls => (c :: l) :: ls := by
  simp [splitlines, h1, h2]

theorem mem_splitlines_bfree_rstrip (s : Str) :
    ∀ l ∈ splitlines s, boundaryFree (rstrip l) = true := by
  induction s using splitlines.induct with
  | case1 => simp [splitlines_nil]
  | case2 rest ih =>
    rw [splitlines_nl]
    intro l hl
    rcases List.mem_cons.mp hl with rfl | hl2
    · simp [rstrip, isSpace, boundaryFree]
    · exact ih l hl2
  | case3 rest ih =>
    rw [splitlines_crlf]
    intro l hl
    rcases List.mem_cons.mp hl with rfl | hl2
    · simp [rstrip, isSpace, boundaryFree]
    · exact ih l hl2
  | case4 rest h ih =>
    cases rest with
    | nil =>
      rw [splitlines_cr_nil]
      intro l hl
      rcases List.mem_cons.mp hl with rfl | hl2
      · simp [rstrip, isSpace, boundaryFree]
      · simp at hl2
    | cons d r2 =>
      rw [splitlines_cr d r2 (fun hd => h r2 (by rw [hd]))]
      intro l hl
      rcases List.mem_cons.mp hl with rfl | hl2
      · simp [rstrip, isSpace, boundaryFree]
      · exact ih l hl2
  | case5 c rest h1 h2 h3 hsp ih =>
    rw [splitlines_other c rest (fun h => h1 h) (fun h => h3 h), hsp]
    intro l hl
    simp at hl
    subst hl
    by_cases hws : isSpace c = true
    · simp [rstrip, hws, boundaryFree]
    · simp [rstrip, hws, boundaryFree]
      exact ⟨fun h => h1 h, fun h => h3 h⟩
  | case6 c rest h1 h2 h3 l0 ls hsp ih =>
    rw [splitlines_other c rest (fun h => h1 h) (fun h => h3 h), hsp]
    intro l hl
    rcases List.mem_cons.mp hl with rfl | hl2
    · have hl0 : boundaryFree (rstrip l0) = true := ih l0 (by rw [hsp]; simp)
      rw [rstrip_cons]
      by_cases hr : rstrip l0 = []
      · by_cases hws : isSpace c = true
        · simp [hr, hws, boundaryFree]
        · simp [hr, hws, boundaryFree]
          exact ⟨fun h => h1 h, fun h => h3 h⟩
      · rw [if_neg hr]
        unfold boundaryFree at hl0 ⊢
        simp at hl0 ⊢
        exact ⟨⟨fun h => h1 h, fun h => h3 h⟩, hl0⟩
    · exact ih l (by rw [hsp]; exact List.mem_cons_of_mem l0 hl2)

theorem findLoop_cons_pos (p : Str → Bool) (x : Str) (xs : List Str) (i : Nat)
    (h : p x = true) : findLoop p (x :: xs) i = some i := by
  simp [findLoop, h]

theorem findLoop_cons_neg (p : Str → Bool) (x : Str) (xs : List Str) (i : Nat)
    (h : p x = false) : findLoop p (x :: xs) i = findLoop p xs (i + 1) := by
  simp [findLoop, h]

theorem findLoop_none_iff (p : Str → Bool) (xs : List Str) (i : Nat) :
    findLoop p xs i = none ↔ ∀ x ∈ xs, p x = false := by
  induction xs generalizing i with
  | nil => simp [findLoop]
  | cons x xs ih =>
    by_cases hx : p x = true
    · rw [findLoop_cons_pos p x xs i hx]
      simp [hx]
    · have hxf : p x = false := by cases hb : p x; rfl; exact absurd hb hx
      rw [findLoop_cons_neg p x xs i hxf, ih (i + 1)]
      simp [hxf]

theorem findLoop_some_iff (p : Str → Bool) (xs : List Str) (i j : Nat) :
    findLoop p xs i = some j ↔
      ∃ k, j = i + k ∧ k < xs.length ∧ p (xs.getD k []) = true ∧
        ∀ m < k, p (xs.getD m []) = false := by
  induction xs generalizing i j with
  | nil => simp [findLoop]
  | cons x xs ih =>
    by_cases hx : p x = true
    · rw [findLoop_cons_pos p x xs i hx]
      constructor
      · intro hj
        refine ⟨0, by simpa using hj.symm, by simp, by simpa using hx, by simp⟩
      · rintro ⟨k, hjk, hk, hp, hmin⟩
        cases k with
        | zero => simp at hjk; simp [hjk]
        | succ k0 =>
          have := hmin 0 (Nat.succ_pos k0)
          simp at this
          rw [this] at hx
          exact absurd hx (by simp)
    · have hxf : p x = false := by cases hb : p x; rfl; exact absurd hb hx
      rw [findLoop_cons_neg p x xs i hxf, ih (i + 1)]
      constructor
      · rintro ⟨k, hjk, hk, hp, hmin⟩
        refine ⟨k + 1, by omega, by simpa using Nat.succ_lt_succ hk, by simpa using hp, ?_⟩
        intro m hm
        cases m with
        | zero => simpa using hxf
        | succ m0 => simpa using hmin m0 (Nat.lt_of_succ_lt_succ hm)
      · rintro ⟨k, hjk, hk, hp, hmin⟩
        cases k with
        | zero =>
          simp at hp
          rw [hp] at hxf
          simp at hxf
        | succ k0 =>
          refine ⟨k0, by omega, by simpa using Nat.lt_of_succ_lt_succ hk, by simpa using hp, ?_⟩
          intro m hm
          simpa using hmin (m + 1) (Nat.succ_lt_succ hm)

/-! ## Claim theorems: concrete evaluations and counterexamples -/

/-- C1: the claim says `find_section` returns the not-found sentinel pair for
absent titles.  In the code the not-found branch is unreachable: on the
document `"hello\n"` with the absent title `"Missing"` the call raises
(AttributeError on `get_heading_level`), and on `"# Other\ntext\n"` it
silently anchors at line 0's unrelated heading and returns the range (0, 1)
instead of a sentinel. -/
theorem C1_find_section_missing_title_misbehaves :
    find_markdown_section [str "hello\n"] (str "Missing") none 0 = Except.error () ∧
    find_markdown_section (string_to_lines (str "# Other\ntext\n")) (str "Missing") none 0 =
      Except.ok (0, 1) :=
  ⟨rfl, rfl⟩

/-- C3: the claim says `replace_section_content` with `replace_heading=False`
preserves the heading line.  On `"## A\nbody\n"` the code instead splices the
new content over the heading as well (the `start_line += 1` is cancelled by
the `[:start_line-1]` slice), returning the document `"new"` without the
`## A` line. -/
theorem C3_replace_content_drops_heading :
    replace_markdown_section_content (str "## A\nbody\n") (str "A") (str "new\n") false =
      Except.ok (str "new", true) :=
  rfl

/-- C5: the claim states `add_section("A\nB\n", "X\n", after_heading="A")`
yields `"A\nB\nX\n"`.  The code joins keepends lines with an extra `"\n"`,
yielding `"A\n\nB\n\nX\n"` (every line break doubled) instead. -/
theorem C5_add_section_doubles_line_breaks :
    add_markdown_section (str "A\nB\n") (str "X\n") (some (str "A")) false =
      Except.ok (str "A\n\nB\n\nX\n", true) ∧
    str "A\n\nB\n\nX\n" ≠ str "A\nB\nX\n" :=
  ⟨rfl, by decide⟩

/-- C7: the claim says a missing section leaves the document unchanged with
`changed=false`.  The code never takes that branch: on `"Hello\n"` it raises
(AttributeError), and on `"# Other\ntext\n"` it replaces the unrelated
section anchored at line 0, returning `("new", True)`. -/
theorem C7_replace_missing_section_misbehaves :
    replace_markdown_section_content (str "Hello\n") (str "Missing") (str "new\n") false =
      Except.error () ∧
    replace_markdown_section_content (str "# Other\ntext\n") (str "Missing") (str "new\n")
      false = Except.ok (str "new", true) :=
  ⟨rfl, rfl⟩

/-- C2 counterexample: the claim says a document with only one heading and no
children yields `end = len(lines)`.  On `["# A\n"]` the code returns
`(0, 0)`: the end index is `len(lines) - 1 = 0`, not `len(lines) = 1`. -/
theorem C2_counterexample_single_heading :
    find_markdown_section [str "# A\n"] (str "A") none 0 = Except.ok (0, 0) ∧
    List.length [str "# A\n"] = 1 ∧ (0 : Nat) ≠ 1 :=
  ⟨rfl, rfl, by decide⟩

/-- C6 counterexample: the claim says `find_heading` never matches a heading
whose trimmed title merely begins with the query title.  The regex
`^(#+)\s+Contributors` has no end anchor, so the heading
`## ContributorsX` (trimmed title `"ContributorsX"`) is matched by the
query `"Contributors"` at index 0. -/
theorem C6_counterexample_prefix_match :
    find_markdown_heading [str "## ContributorsX\n"] (str "Contributors") none 0 = some 0 ∧
    get_heading_title (str "## ContributorsX\n") ≠ str "Contributors" :=
  ⟨rfl, by decide⟩

/-- C8 counterexample: the claim says `add_section` fails with
ConflictingPlacement whenever both `after_heading` and `at_beginning` are
supplied.  Supplying the empty string as `after_heading` together with
`at_beginning=True` passes the truthiness assert and succeeds. -/
theorem C8_counterexample_empty_after_heading :
    add_markdown_section (str "x") (str "y") (some (str "")) true =
      Except.ok (str "yx", true) :=
  rfl

/-- C8 amended: `add_markdown_section` raises the ConflictingPlacement
assert exactly when `after_heading` is truthy (given and non-empty) and
`at_begining` is set; in every other case it returns a result with
`changed=true` and never raises.  Stated for `after_heading` values whose
stripped text is free of regex metacharacters: a metacharacter value is
interpolated into the source's heading pattern and can fail at pattern
compilation instead, which the literal matcher does not model. -/
theorem C8_conflict_iff_truthy_both (md c : Str) (ah : Option Str) (ab : Bool)
    (hre : regexLiteral (pyStrip (ah.getD [])) = true) :
    (add_markdown_section md c ah ab = Except.error () ↔
      optTruthy ah = true ∧ ab = true) ∧
    (¬(optTruthy ah = true ∧ ab = true) →
      ∃ out, add_markdown_section md c ah ab = Except.ok (out, true)) := by
  unfold add_markdown_section
  by_cases h : (optTruthy ah && ab) = true
  · rw [if_pos h]
    rcases Bool.and_eq_true_iff.mp h with ⟨h1, h2⟩
    exact ⟨iff_of_true rfl ⟨h1, h2⟩, fun hn => absurd ⟨h1, h2⟩ hn⟩
  · rw [if_neg h]
    by_cases hab : ab = true
    · rw [if_pos hab]
      constructor
      · exact iff_of_false (by simp) (fun ⟨h1, h2⟩ => h (by rw [h1, h2]; rfl))
      · exact fun _ => ⟨c ++ md, rfl⟩
    · rw [if_neg hab]
      constructor
      · exact iff_of_false (by simp) (fun ⟨h1, h2⟩ => hab h2)
      · exact fun _ => ⟨_, rfl⟩

/-- Concrete instance of the amended C8 dichotomy: a literal `after_heading`
with `at_begining` unset never errors and reports `changed=true`. -/
theorem C8_amended_witness :
    (add_markdown_section (str "# A\nx\n") (str "X\n") (some (str "A")) false =
        Except.error () ↔
      optTruthy (some (str "A")) = true ∧ false = true) ∧
    (¬(optTruthy (some (str "A")) = true ∧ false = true) →
      ∃ out, add_markdown_section (str "# A\nx\n") (str "X\n") (some (str "A")) false =
        Except.ok (out, true)) :=
  C8_conflict_iff_truthy_both (str "# A\nx\n") (str "X\n") (some (str "A")) false
    (by decide)

/-- C9 counterexample: with `at_beginning=True` the code returns
`new_content + markdown_string` verbatim, so a document with Windows line
endings keeps them next to the content's Unix ones — the output is not
normalized to a single convention (re-normalizing it changes it). -/
theorem C9_counterexample_at_beginning_raw :
    add_markdown_section (str "a\r\nb") (str "X\n") none true =
      Except.ok (str "X\na\r\nb", true) ∧
    lines_to_string (string_to_lines (str "X\na\r\nb")) ≠ str "X\na\r\nb" :=
  ⟨rfl, by decide⟩

/-- C10: `lines_to_string(string_to_lines(s))` right-strips every line of
`s` and joins them with single `"\n"` separators; trailing newlines and
trailing whitespace are lost, so the round trip is not the identity on
documents such as `"a\n"` or `"a \nb "`. -/
theorem C10_split_join_roundtrip :
    (∀ s : Str, lines_to_string (string_to_lines s) =
      joinWith ['\n'] ((splitlines s).map rstrip)) ∧
    lines_to_string (string_to_lines (str "a\n")) = str "a" ∧
    lines_to_string (string_to_lines (str "a \nb ")) = str "a\nb" ∧
    str "a" ≠ str "a\n" ∧ str "a\nb" ≠ str "a \nb " :=
  ⟨fun _ => rfl, rfl, rfl, by decide, by decide⟩

/-! ## C9: which operations normalize line endings -/

theorem joinWith_cons2 (x y : Str) (ys : List Str) :
    joinWith ['\n'] (x :: y :: ys) = x ++ ['\n'] ++ joinWith ['\n'] (y :: ys) := rfl

theorem no_cr_joinWith (xs : List Str) (h : ∀ l ∈ xs, boundaryFree l = true) :
    '\r' ∉ joinWith ['\n'] xs := by
  induction xs with
  | nil => simp [joinWith]
  | cons x xs ih =>
    cases xs with
    | nil =>
      show '\r' ∉ joinWith ['\n'] [x]
      rw [show joinWith ['\n'] [x] = x from rfl]
      intro hmem
      have := h x (by simp)
      unfold boundaryFree at this
      rw [List.all_eq_true] at this
      have := this '\r' hmem
      simp at this
    | cons y ys =>
      rw [joinWith_cons2]
      intro hmem
      rcases List.mem_append.mp hmem with hmem1 | hmem2
      · rcases List.mem_append.mp hmem1 with hmem3 | hmem4
        · have := h x (by simp)
          unfold boundaryFree at this
          rw [List.all_eq_true] at this
          have := this '\r' hmem3
          simp at this
        · simp at hmem4
      · exact ih (fun l hl => h l (List.mem_cons_of_mem x hl)) hmem2

theorem pyTake_subset (xs : List Str) (i : Int) : ∀ l ∈ pyTake xs i, l ∈ xs := by
  unfold pyTake
  intro l hl
  by_cases h : i < 0
  · rw [if_pos h] at hl; exact List.take_subset _ _ hl
  · rw [if_neg h] at hl; exact List.take_subset _ _ hl

theorem pyDrop_subset (xs : List Str) (i : Int) : ∀ l ∈ pyDrop xs i, l ∈ xs := by
  unfold pyDrop
  intro l hl
  by_cases h : i < 0
  · rw [if_pos h] at hl; exact List.drop_subset _ _ hl
  · rw [if_neg h] at hl; exact List.drop_subset _ _ hl

/-- C9 amended: of the document-producing operations only
`replace_markdown_section_content` normalizes line endings (via
`lines_to_string`): whenever it succeeds, its output contains no carriage
return at all, for every input document and content whatever their original
line-ending conventions.  `add_markdown_section` performs no such
normalization in either branch (see the counterexample). -/
theorem C9_replace_output_single_convention (md t c : Str) (rh : Bool) (out : Str)
    (ch : Bool) (h : replace_markdown_section_content md t c rh = Except.ok (out, ch)) :
    '\r' ∉ out := by
  unfold replace_markdown_section_content at h
  cases hf : find_markdown_section (string_to_lines md) t none 0 with
  | error e => simp only [hf] at h; exact absurd h (by simp)
  | ok se =>
    obtain ⟨s, en⟩ := se
    simp only [hf, Except.ok.injEq, Prod.mk.injEq] at h
    obtain ⟨hout, hch⟩ := h
    rw [← hout]
    unfold lines_to_string
    apply no_cr_joinWith
    intro l hl
    rcases List.mem_map.mp hl with ⟨l0, hl0, rfl⟩
    rcases List.mem_append.mp hl0 with hin | hin3
    · rcases List.mem_append.mp hin with hin1 | hin2
      · exact mem_splitlines_bfree_rstrip md l0 (pyTake_subset _ _ l0 hin1)
      · exact mem_splitlines_bfree_rstrip c l0 hin2
    · exact mem_splitlines_bfree_rstrip md l0 (pyDrop_subset _ _ l0 hin3)

/-- Witness for C9: a replacement on a CRLF document yields a CR-free output. -/
theorem C9_witness_concrete : '\r' ∉ str "new" :=
  C9_replace_output_single_convention (str "## A\r\nbody\r\n") (str "A") (str "new\n")
    false (str "new") true rfl

/-! ## C2: what the returned section end actually is -/

theorem getD_drop (l : List Str) (n k : Nat) :
    (l.drop n).getD k [] = l.getD (n + k) [] := by
  rw [List.getD_eq_getElem?_getD, List.getD_eq_getElem?_getD, List.getElem?_drop]

theorem getD_of_get? (l : List Str) (n : Nat) (x : Str) (h : l.get? n = some x) :
    l.getD n [] = x := by
  rw [List.getD_eq_getElem?_getD, ← List.get?_eq_getElem?, h]
  rfl

theorem get?_lt_length (l : List Str) (n : Nat) (x : Str) (h : l.get? n = some x) :
    n < l.length :=
  (List.get?_eq_some.mp h).1

theorem getD_mem (l : List Str) (k : Nat) (h : k < l.length) : l.getD k [] ∈ l := by
  rw [List.getD_eq_getElem?_getD, List.getElem?_eq_getElem h]
  exact List.getElem_mem h

/-- C2 amended: whenever `find_markdown_section` succeeds with `(s, e)`, the
returned `e` is the index of the line *before* the first following heading
of level at most the anchor's level (an inclusive last-line index, one less
than the claim's exclusive bound), and `len(lines) - 1` — not `len(lines)` —
when no such heading exists. -/
theorem C2_section_end_prev_heading (lines : List Str) (title : Str) (s e : Nat)
    (h : find_markdown_section lines title none 0 = Except.ok (s, e)) :
    section_end_spec lines s e := by
  unfold find_markdown_section at h
  have main : ∀ (s0 : Nat), lines.get? s0 ≠ none →
      (match lines.get? s0 with
        | none => Except.error ()
        | some anchor =>
          match get_heading_level anchor with
          | none => Except.error ()
          | some lvl =>
            Except.ok (s0,
              match findLoop (fun l => headingMatch l && decide (hashCount l ≤ lvl))
                  (lines.drop (s0 + 1)) 0 with
              | some i => s0 + i
              | none => lines.length - 1)) = Except.ok (s, e) →
      section_end_spec lines s e := by
    intro s0 hne hh
    cases hget : lines.get? s0 with
    | none => exact absurd hget hne
    | some anchor =>
      simp only [hget] at hh
      cases hlvl : get_heading_level anchor with
      | none => simp only [hlvl] at hh; exact absurd hh (by simp)
      | some lvl =>
        simp only [hlvl] at hh
        rcases hfl2 : findLoop (fun l => headingMatch l && decide (hashCount l ≤ lvl))
            (lines.drop (s0 + 1)) 0 with _ | i
        · simp only [hfl2, Except.ok.injEq, Prod.mk.injEq] at hh
          obtain ⟨hs, he⟩ := hh
          subst hs
          refine ⟨lvl, by rw [getD_of_get? lines s0 anchor hget]; exact hlvl,
            Or.inr ⟨?_, he.symm⟩⟩
          intro j2 hj1 hj2 hboth
          obtain ⟨hm1, hm2⟩ := hboth
          have hmem := findLoop_none_iff _ _ _ |>.mp hfl2
          have hidx : (lines.drop (s0 + 1)).getD (j2 - s0 - 1) [] = lines.getD j2 [] := by
            rw [getD_drop]; congr 1; omega
          have hfalse := hmem ((lines.drop (s0 + 1)).getD (j2 - s0 - 1) [])
            (getD_mem _ _ (by rw [List.length_drop]; omega))
          rw [hidx] at hfalse
          rw [hm1] at hfalse
          simp at hfalse
          rw [← List.getD_eq_getElem?_getD] at hfalse
          omega
        · simp only [hfl2, Except.ok.injEq, Prod.mk.injEq] at hh
          obtain ⟨hs, he⟩ := hh
          subst hs
          rcases (findLoop_some_iff _ _ _ _).mp hfl2 with ⟨k, hik, hk, hp, hmin⟩
          rw [List.length_drop] at hk
          refine ⟨lvl, by rw [getD_of_get? lines s0 anchor hget]; exact hlvl,
            Or.inl ⟨s0 + 1 + k, by omega, by omega, ?_, ?_, ?_, by omega⟩⟩
          · have := (Bool.and_eq_true_iff.mp hp).1
            rw [getD_drop] at this
            exact this
          · have := (Bool.and_eq_true_iff.mp hp).2
            rw [getD_drop] at this
            exact of_decide_eq_true this
          · intro m hm1 hm2 hboth
            obtain ⟨q1, q2⟩ := hboth
            have hm0 := hmin (m - s0 - 1) (by omega)
            have hidx : (lines.drop (s0 + 1)).getD (m - s0 - 1) [] = lines.getD m [] := by
              rw [getD_drop]; congr 1; omega
            rw [hidx, q1] at hm0
            simp at hm0
            rw [← List.getD_eq_getElem?_getD] at hm0
            omega
  rcases hfl : findLoop (headingRegexMatch title none) (lines.drop 0) 0 with _ | j <;>
    simp only [hfl] at h
  · cases hget : lines.get? 0 with
    | none => simp only [hget] at h; exact absurd h (by simp)
    | some anchor => exact main 0 (by rw [hget]; simp) h
  · cases hget : lines.get? j with
    | none => simp only [hget] at h; exact absurd h (by simp)
    | some anchor => exact main j (by rw [hget]; simp) h

/-- Witness for C2: the document `## T / body / ## U` yields the range
`(0, 1)` — the end is the last body line before `## U`, and the spec
predicate holds for it. -/
theorem C2_amended_witness :
    section_end_spec (string_to_lines (str "## T\nbody\n## U\n")) 0 1 :=
  C2_section_end_prev_heading (string_to_lines (str "## T\nbody\n## U\n")) (str "T") 0 1 rfl

/-! ## C6: what `find_markdown_heading` actually matches -/

theorem hashCount_replicate_append (lv : Nat) (rest : Str) (h : headIsSpace rest = true) :
    hashCount (List.replicate lv '#' ++ rest) = lv := by
  induction lv with
  | zero =>
    simp only [List.replicate, List.nil_append]
    cases rest with
    | nil => simp [headIsSpace] at h
    | cons c cs =>
      simp only [headIsSpace] at h
      simp [hashCount_cons, ws_ne_hash c h]
  | succ n ih => simp [List.replicate, hashCount_cons, ih]

theorem afterHashes_replicate_append (lv : Nat) (rest : Str) (h : headIsSpace rest = true) :
    afterHashes (List.replicate lv '#' ++ rest) = rest := by
  induction lv with
  | zero =>
    simp only [List.replicate, List.nil_append]
    cases rest with
    | nil => simp [headIsSpace] at h
    | cons c cs =>
      simp only [headIsSpace] at h
      simp [afterHashes_cons, ws_ne_hash c h]
  | succ n ih => simp [List.replicate, afterHashes_cons, ih]

theorem headingRegexMatch_iff (title : Str) (level : Option Nat) (line : Str)
    (hlv : ∀ lv, level = some lv → 1 ≤ lv) :
    headingRegexMatch title level line = true ↔ heading_search_spec title level line := by
  cases level with
  | none =>
    unfold headingRegexMatch heading_search_spec titleMatchAny
    rw [Bool.and_eq_true_iff, List.isPrefixOf_iff_prefix]
    constructor
    · exact fun ⟨a, b⟩ => ⟨a, trivial, b⟩
    · exact fun ⟨a, _, b⟩ => ⟨a, b⟩
  | some lv =>
    have h1 : 1 ≤ lv := hlv lv rfl
    unfold headingRegexMatch heading_search_spec titleMatchLevel
    constructor
    · intro h
      rcases Bool.and_eq_true_iff.mp h with ⟨h12, h3⟩
      rcases Bool.and_eq_true_iff.mp h12 with ⟨htake, hhead⟩
      have htake2 : line.take lv = List.replicate lv '#' := of_decide_eq_true htake
      have hdecomp : line = List.replicate lv '#' ++ line.drop lv := by
        conv_lhs => rw [← List.take_append_drop lv line]
        rw [htake2]
      have hcount : hashCount line = lv := by
        conv_lhs => rw [hdecomp]
        exact hashCount_replicate_append lv _ hhead
      have hafter : afterHashes line = line.drop lv := by
        conv_lhs => rw [hdecomp]
        exact afterHashes_replicate_append lv _ hhead
      refine ⟨?_, hcount, ?_⟩
      · unfold headingMatch
        rw [hcount, hafter, hhead]
        simp [h1]
      · unfold restTitle
        rw [hafter]
        exact List.isPrefixOf_iff_prefix.mp h3
    · intro h
      obtain ⟨hm, hc, hp⟩ := h
      have htw : line.takeWhile (fun c => c == '#') = List.replicate lv '#' := by
        apply List.eq_replicate_iff.mpr
        refine ⟨hc, ?_⟩
        intro b hb
        have := List.mem_takeWhile_imp hb
        simpa using this
      have hdecomp : line = List.replicate lv '#' ++ afterHashes line := by
        conv_lhs => rw [← List.takeWhile_append_dropWhile (p := fun c => c == '#') (l := line)]
        rw [htw]
        rfl
      have hlen : (List.replicate lv '#').length = lv := List.length_replicate lv '#'
      have htake2 : line.take lv = List.replicate lv '#' := by
        conv_lhs => rw [hdecomp]
        exact List.take_left' hlen
      have hdrop : line.drop lv = afterHashes line := by
        conv_lhs => rw [hdecomp]
        exact List.drop_left' hlen
      have hhead : headIsSpace (afterHashes line) = true := by
        unfold headingMatch at hm
        exact (Bool.and_eq_true_iff.mp hm).2
      refine Bool.and_eq_true_iff.mpr ⟨Bool.and_eq_true_iff.mpr ⟨decide_eq_true htake2, ?_⟩, ?_⟩
      · rw [hdrop]; exact hhead
      · rw [hdrop]
        exact List.isPrefixOf_iff_prefix.mpr hp

/-- C6 amended: `find_markdown_heading` returns the index of the first line
at or after the offset that is a heading (at the exact level when one is
given, which callers only use with positive levels) whose title text merely
STARTS WITH the stripped query title — prefix matching, case-sensitive — and
`None` when no such line exists.  Exact title equality, as the claim stated
it, is not required (see the counterexample).  The `regexLiteral` hypothesis
records that the query is metacharacter-free, the regime in which the model
matches Python's `re.match`. -/
theorem C6_find_heading_first_prefix (lines : List Str) (title : Str) (level : Option Nat)
    (off : Nat) (hlv : ∀ lv, level = some lv → 1 ≤ lv)
    (hre : regexLiteral (pyStrip title) = true) :
    find_heading_spec lines title level off
      (find_markdown_heading lines title level off) := by
  unfold find_markdown_heading find_heading_spec
  cases hfl : findLoop (headingRegexMatch title level) (lines.drop off) off with
  | none =>
    intro m h1 h2 hspec
    have hmem := findLoop_none_iff _ _ _ |>.mp hfl
    have hidx : (lines.drop off).getD (m - off) [] = lines.getD m [] := by
      rw [getD_drop]; congr 1; omega
    have hfalse := hmem ((lines.drop off).getD (m - off) [])
      (getD_mem _ _ (by rw [List.length_drop]; omega))
    rw [hidx] at hfalse
    rw [(headingRegexMatch_iff title level _ hlv).mpr hspec] at hfalse
    exact Bool.true_eq_false.mp hfalse
  | some j =>
    rcases (findLoop_some_iff _ _ _ _).mp hfl with ⟨k, hjk, hk, hp, hmin⟩
    rw [List.length_drop] at hk
    rw [getD_drop] at hp
    refine ⟨by omega, by omega, ?_, ?_⟩
    · rw [hjk]
      exact (headingRegexMatch_iff title level _ hlv).mp hp
    · intro m h1 h2 hspec
      have hm0 := hmin (m - off) (by omega)
      have hidx : (lines.drop off).getD (m - off) [] = lines.getD m [] := by
        rw [getD_drop]; congr 1; omega
      rw [hidx, (headingRegexMatch_iff title level _ hlv).mpr hspec] at hm0
      exact Bool.true_eq_false.mp hm0

/-- Witness for C6: searching `["text", "## Contributors"]` for
"Contributors" finds index 1 and the first-prefix-match spec holds. -/
theorem C6_amended_witness :
    find_heading_spec [str "text\n", str "## Contributors\n"] (str "Contributors") none 0
      (find_markdown_heading [str "text\n", str "## Contributors\n"]
        (str "Contributors") none 0) :=
  C6_find_heading_first_prefix [str "text\n", str "## Contributors\n"] (str "Contributors")
    none 0 (fun lv h => by cases h) (by decide)

/-! ## C4: toolbox for the idempotence analysis -/

theorem ends_nl_ne_nil (s : Str) (h : ends_nl s = true) : s ≠ [] := by
  intro h0
  subst h0
  simp [ends_nl] at h

